/-
Verification of the WooCommerce analytics pipeline (woo9600.py): the
moving-average engine, the daily sales aggregator, the coordinate
normalizer and the canvas-plotting part of the ASCII chart renderer.

The Python source is shallowly embedded: Python floats become rationals,
Python `None` becomes `Option`, raised exceptions become `Except`, and
Python `int()` (truncation toward zero) is modelled explicitly.

Note on the renderer: the class `RetroASCIIGraph` defines `__init__`,
`normalize_data` and `draw` twice; in Python the later definitions in the
class body silently replace the earlier ones, so the effective renderer is
the second set (fixed canvas width 100, height 20).  The embedding below
follows the effective (second) definitions.
-/
import Mathlib

namespace Woo9600

/-! ## Moving-average engine (`WooCommerceAnalytics.calculate_moving_average`) -/

/-- Round half to even, Python's `round` on the integer scale. -/
def roundHalfEven (x : ℚ) : ℤ :=
  let f := ⌊x⌋
  let r := x - (f : ℚ)
  if r < 1/2 then f
  else if 1/2 < r then f + 1
  else if f % 2 = 0 then f else f + 1

/-- Python `round(x, 2)`: round to 2 decimal digits. -/
def round2 (x : ℚ) : ℚ := (roundHalfEven (x * 100) : ℚ) / 100

/-- The two `ValueError`s `calculate_moving_average` can raise. -/
inductive MAError where
  | invalidWeightLength
  | weightsNotNormalized
  deriving DecidableEq, Repr

/-- `weights = [1/window] * window`, the default when `weights is None`. -/
def defaultWeights (window : ℕ) : List ℚ := List.replicate window (1 / (window : ℚ))

/-- The effective weight vector: the supplied one, or the uniform default. -/
def effWeights (window : ℕ) (w? : Option (List ℚ)) : List ℚ :=
  w?.getD (defaultWeights window)

/-- `sum(w * v for w, v in zip(weights, seg))`. -/
def weightedSum (weights seg : List ℚ) : ℚ :=
  (List.zipWith (fun w v => w * v) weights seg).sum

/-- The tolerance `1e-10` for the weight-sum check. -/
def weightTol : ℚ := 1 / 10 ^ 10

/-- Embedding of `WooCommerceAnalytics.calculate_moving_average`:
validate the weights, then for each index `i` emit `None` while no full
window is available and otherwise the rounded weighted sum of
`data[i-window+1 : i+1]`. -/
def calculate_moving_average (data : List ℚ) (window : ℕ)
    (w? : Option (List ℚ)) : Except MAError (List (Option ℚ)) :=
  let weights := effWeights window w?
  if weights.length ≠ window then .error .invalidWeightLength
  else if weightTol < |weights.sum - 1| then .error .weightsNotNormalized
  else .ok <| (List.range data.length).map fun i =>
    if i < window - 1 then none
    else some (round2 (weightedSum weights ((data.drop (i + 1 - window)).take window)))

/-! ## Daily aggregator (`WooCommerceAnalytics.aggregate_daily_sales`) -/

/-- A calendar date, the result of truncating an order timestamp to
`YYYY-MM-DD` (Python `strftime('%Y-%m-%d')` on the parsed datetime). -/
structure Date where
  year : ℕ
  month : ℕ
  day : ℕ
  deriving DecidableEq, Repr

/-- Lexicographic order on dates.  For the 4-2-2 zero-padded digit strings
produced by `strftime('%Y-%m-%d')` this coincides with the string order
used by Python's `sorted` on the dict keys. -/
def Date.le (a b : Date) : Prop :=
  a.year < b.year ∨ a.year = b.year ∧
    (a.month < b.month ∨ a.month = b.month ∧ a.day ≤ b.day)

/-- Strict version of `Date.le`. -/
def Date.lt (a b : Date) : Prop := Date.le a b ∧ a ≠ b

instance : DecidableRel Date.le := fun a b =>
  decidable_of_iff (a.year < b.year ∨ a.year = b.year ∧
    (a.month < b.month ∨ a.month = b.month ∧ a.day ≤ b.day)) Iff.rfl

/-- Digit value of an ASCII digit character. -/
def cval (c : Char) : ℕ := c.toNat - 48

/-- The character for a decimal digit. -/
def digitChar (n : ℕ) : Char := Char.ofNat (48 + n % 10)

/-- `strftime('%Y-%m-%d')`: the zero-padded `YYYY-MM-DD` rendering. -/
def Date.fmt (d : Date) : String :=
  String.mk [digitChar (d.year / 1000), digitChar (d.year / 100),
    digitChar (d.year / 10), digitChar d.year, '-',
    digitChar (d.month / 10), digitChar d.month, '-',
    digitChar (d.day / 10), digitChar d.day]

/-- An order record; only the `date_created` field is consumed by the core. -/
structure Order where
  date_created : String

/-- Model of the external `datetime.fromisoformat` boundary, restricted to
what the core consumes: an ISO-8601 timestamp must start with a
`YYYY-MM-DD` date (month 01–12, day 01–31), followed by nothing or by a
`'T'`/`' '` separator and the time of day; the parse yields the calendar
date, which is what `strftime('%Y-%m-%d')` extracts.  An invalid string
yields `none` (Python: `ValueError` is raised). -/
def parseDate (s : String) : Option Date :=
  match s.toList with
  | y1 :: y2 :: y3 :: y4 :: s1 :: m1 :: m2 :: s2 :: d1 :: d2 :: rest =>
    let ok :=
      y1.isDigit && y2.isDigit && y3.isDigit && y4.isDigit &&
      s1 == '-' && m1.isDigit && m2.isDigit && s2 == '-' &&
      d1.isDigit && d2.isDigit &&
      (match rest with
       | [] => true
       | c :: _ => c == 'T' || c == ' ')
    let m := 10 * cval m1 + cval m2
    let d := 10 * cval d1 + cval d2
    if ok && (1 ≤ m && m ≤ 12) && (1 ≤ d && d ≤ 31) then
      some ⟨1000 * cval y1 + 100 * cval y2 + 10 * cval y3 + cval y4, m, d⟩
    else none
  | _ => none

/-- Parse every order's timestamp; `none` as soon as one fails
(the Python loop raises at the first malformed `date_created`). -/
def parseAll : List Order → Option (List Date)
  | [] => some []
  | o :: rest =>
    match parseDate o.date_created with
    | none => none
    | some d => (parseAll rest).map (fun ds => d :: ds)

/-- One `daily_sales[date] += 1` step on the association list modelling the
`defaultdict(int)`: increment the entry of `d`, creating it at 1. -/
def bump (m : List (Date × ℕ)) (d : Date) : List (Date × ℕ) :=
  match m with
  | [] => [(d, 1)]
  | (k, v) :: rest => if k = d then (k, v + 1) :: rest else (k, v) :: bump rest d

/-- The counting loop of `aggregate_daily_sales` over already-parsed dates. -/
def tally (dates : List Date) : List (Date × ℕ) := dates.foldl bump []

/-- Comparison on dict entries used by `sorted(daily_sales.items())`. -/
def entryLe (a b : Date × ℕ) : Prop := Date.le a.1 b.1

instance : DecidableRel entryLe := fun a b =>
  inferInstanceAs (Decidable (Date.le a.1 b.1))

/-- Embedding of `WooCommerceAnalytics.aggregate_daily_sales`: count the
orders of each calendar day, then return the entries sorted by date. -/
def aggregate_daily_sales (orders : List Order) :
    Except String (List (Date × ℕ)) :=
  match parseAll orders with
  | none => .error "MalformedTimestamp"
  | some dates => .ok (List.insertionSort entryLe (tally dates))

/-! ## Renderer (`RetroASCIIGraph`, effective second definitions) -/

/-- `self.height = 20` (both definitions agree). -/
def height : ℕ := 20

/-- `self.max_y = 20` (both definitions agree). -/
def max_y : ℚ := 20

/-- `self.width = 100` set by the effective (second) `__init__`. -/
def width : ℕ := 100

/-- `self.label_spacing = 3` from the superseded first `__init__`. -/
def label_spacing : ℕ := 3

/-- Canvas width formula of the superseded first `draw`:
`len(days_ago) * self.label_spacing - 1`. -/
def firstDefWidth (nLabels : ℕ) : ℕ := nLabels * label_spacing - 1

/-- Python `int()` on a rational: truncation toward zero. -/
def pyInt (x : ℚ) : ℤ := if 0 ≤ x then ⌊x⌋ else ⌈x⌉

/-- One value of `RetroASCIIGraph.normalize_data`:
`None if x is None else height - 1 - int((min(x, max_y) / max_y) * (height - 1))`. -/
def normalize_one (x? : Option ℚ) : Option ℤ :=
  x?.map fun x =>
    (height : ℤ) - 1 - pyInt (min x max_y / max_y * ((height : ℚ) - 1))

/-- Embedding of `RetroASCIIGraph.normalize_data`. -/
def normalize_data (data : List (Option ℚ)) : List (Option ℤ) :=
  data.map normalize_one

/-- A data series handed to `draw`: values, legend label, marker glyph. -/
structure SeriesEntry where
  data : List (Option ℚ)
  label : String
  symbol : Char

/-- `x_scale = (self.width - 1) / (len(days_ago) - 1)` (exact rational). -/
def x_scale (nLabels : ℕ) : ℚ := ((width : ℚ) - 1) / ((nLabels : ℚ) - 1)

/-- The bounds check `0 <= x < self.width and 0 <= y < self.height`. -/
def inBoundsB (x y : ℤ) : Bool :=
  decide (0 ≤ x) && decide (x < (width : ℤ)) &&
  decide (0 ≤ y) && decide (y < (height : ℤ))

/-- `graph[y][x] = symbol`. -/
def setCell (g : List (List Char)) (y x : ℕ) (c : Char) : List (List Char) :=
  g.set y ((g.getD y []).set x c)

/-- Plotting one enumerated point `(i, y)` of a normalized series:
skip undefined values, compute `x = int(i * x_scale)`, and write the
symbol only when the bounds check passes. -/
def plotStep (xs : ℚ) (symbol : Char) (g : List (List Char)) :
    ℕ × Option ℤ → List (List Char)
  | (_, none) => g
  | (i, some y) =>
    let x := pyInt ((i : ℚ) * xs)
    if inBoundsB x y then setCell g y.toNat x.toNat symbol else g

/-- The plotting loop over one normalized series. -/
def plotSeries (xs : ℚ) (g : List (List Char)) (symbol : Char)
    (nd : List (Option ℤ)) : List (List Char) :=
  nd.enum.foldl (plotStep xs symbol) g

/-- `[['·' for _ in range(width)] for _ in range(height)]`. -/
def initGrid : List (List Char) :=
  List.replicate height (List.replicate width '·')

/-- The canvas-building part of the effective `RetroASCIIGraph.draw`:
normalize every series and plot it onto the shared grid.  Computing
`x_scale` divides by `len(days_ago) - 1`, which in Python raises
`ZeroDivisionError` when `days_ago` has exactly one element; the
embedding returns that error explicitly.  (The remaining body of `draw`
only formats the grid, legend and axes into strings and is total.) -/
def drawGrid (series : List SeriesEntry) (days_ago : List ℤ) :
    Except String (List (List Char)) :=
  if days_ago.length = 1 then .error "ZeroDivisionError"
  else
    let xs := x_scale days_ago.length
    .ok <| series.foldl
      (fun g e => plotSeries xs g e.symbol (normalize_data e.data)) initGrid

/-- Well-formed canvas: `height` rows of `width` glyphs. -/
def GridDims (g : List (List Char)) : Prop :=
  g.length = height ∧ ∀ row ∈ g, row.length = width

/-- The count a date holds in the association list (0 when absent):
the dict read-out `daily_sales[date]`. -/
def lookupD (m : List (Date × ℕ)) (d : Date) : ℕ :=
  match m with
  | [] => 0
  | (k, v) :: rest => if k = d then v else lookupD rest d

/-! ## Moving-average engine: theorems -/

theorem defaultWeights_length (window : ℕ) :
    (defaultWeights window).length = window := by
  simp [defaultWeights]

theorem defaultWeights_sum (window : ℕ) (hw : 1 ≤ window) :
    (defaultWeights window).sum = 1 := by
  have hw0 : (window : ℚ) ≠ 0 := Nat.cast_ne_zero.mpr (by omega)
  rw [defaultWeights, List.sum_replicate, nsmul_eq_mul]
  field_simp

/-- **C2.** For every `window ≥ 1`, `calculate_moving_average` fails if and
only if the effective weight vector is invalid: `InvalidWeightLength`
exactly when the length differs from `window`, `WeightsNotNormalized`
exactly when the length matches but the sum is off by more than `1e-10`,
and it returns normally exactly when both checks pass — in particular the
uniform default always passes. -/
theorem moving_average_error_iff (data : List ℚ) (window : ℕ)
    (w? : Option (List ℚ)) (hw : 1 ≤ window) :
    (calculate_moving_average data window w? = .error .invalidWeightLength ↔
      (effWeights window w?).length ≠ window) ∧
    (calculate_moving_average data window w? = .error .weightsNotNormalized ↔
      (effWeights window w?).length = window ∧
        weightTol < |(effWeights window w?).sum - 1|) ∧
    ((∃ res, calculate_moving_average data window w? = .ok res) ↔
      (effWeights window w?).length = window ∧
        |(effWeights window w?).sum - 1| ≤ weightTol) ∧
    (∃ res, calculate_moving_average data window none = .ok res) := by
  have hnone : ∃ res, calculate_moving_average data window none = .ok res := by
    unfold calculate_moving_average
    have h1 : ¬((effWeights window none).length ≠ window) := by
      simp [effWeights, defaultWeights_length]
    have h2 : ¬(weightTol < |(effWeights window none).sum - 1|) := by
      norm_num [effWeights, defaultWeights_sum window hw, weightTol]
    rw [if_neg h1, if_neg h2]
    exact ⟨_, rfl⟩
  refine ⟨?_, ?_, ?_, hnone⟩ <;>
  · unfold calculate_moving_average
    by_cases h1 : (effWeights window w?).length = window <;>
      by_cases h2 : weightTol < |(effWeights window w?).sum - 1| <;>
      simp [h1, h2, le_of_not_lt, not_lt.mp]

/-- Witness for `moving_average_error_iff` at `data = [1, 2]`, `window = 2`,
`weights = [3/4, 1/4]`. -/
theorem moving_average_error_iff_witness :
    (1 ≤ 2) ∧
    ((∃ res, calculate_moving_average [1, 2] 2 (some [3/4, 1/4]) = .ok res) ↔
      (effWeights 2 (some [3/4, 1/4])).length = 2 ∧
        |(effWeights 2 (some [3/4, 1/4])).sum - 1| ≤ weightTol) :=
  ⟨by norm_num,
    (moving_average_error_iff [1, 2] 2 (some [3/4, 1/4]) (by norm_num)).2.2.1⟩

theorem cma_eq_ok (data : List ℚ) (window : ℕ) (w? : Option (List ℚ))
    (h1 : (effWeights window w?).length = window)
    (h2 : |(effWeights window w?).sum - 1| ≤ weightTol) :
    calculate_moving_average data window w? =
      .ok ((List.range data.length).map fun i =>
        if i < window - 1 then none
        else some (round2 (weightedSum (effWeights window w?)
          ((data.drop (i + 1 - window)).take window)))) := by
  simp only [calculate_moving_average]
  rw [if_neg (by simpa using h1), if_neg (not_lt.mpr h2)]

theorem cma_ok_inv (data : List ℚ) (window : ℕ) (w? : Option (List ℚ))
    (res : List (Option ℚ))
    (hres : calculate_moving_average data window w? = .ok res) :
    (effWeights window w?).length = window ∧
    |(effWeights window w?).sum - 1| ≤ weightTol ∧
    res = (List.range data.length).map fun i =>
      if i < window - 1 then none
      else some (round2 (weightedSum (effWeights window w?)
        ((data.drop (i + 1 - window)).take window))) := by
  simp only [calculate_moving_average] at hres
  by_cases h1 : (effWeights window w?).length = window
  · by_cases h2 : weightTol < |(effWeights window w?).sum - 1|
    · rw [if_neg (by simpa using h1), if_pos h2] at hres
      exact absurd hres (by simp)
    · rw [if_neg (by simpa using h1), if_neg h2] at hres
      injection hres with h
      exact ⟨h1, not_lt.mp h2, h.symm⟩
  · rw [if_pos (by simpa using h1)] at hres
    exact absurd hres (by simp)

/-- **C7.** For every data list, window `≥ 1` and accepted weight vector,
the output has the same length as the data, is `None` at every index
`i < window - 1`, is a defined number at every index `i ≥ window - 1`,
and is all-`None` when `window > len(data)`. -/
theorem moving_average_shape (data : List ℚ) (window : ℕ)
    (w? : Option (List ℚ)) (res : List (Option ℚ)) (hw : 1 ≤ window)
    (hres : calculate_moving_average data window w? = .ok res) :
    res.length = data.length ∧
    (∀ i, i < data.length → i < window - 1 → res[i]? = some none) ∧
    (∀ i, window - 1 ≤ i → i < data.length →
      ∃ v : ℚ, res[i]? = some (some v)) ∧
    (data.length < window → ∀ o ∈ res, o = none) := by
  obtain ⟨h1, h2, rfl⟩ := cma_ok_inv data window w? res hres
  refine ⟨by simp, ?_, ?_, ?_⟩
  · intro i hi hiw
    simp [List.getElem?_map, List.getElem?_range, hi, hiw]
  · intro i hiw hi
    refine ⟨round2 (weightedSum (effWeights window w?)
      ((data.drop (i + 1 - window)).take window)), ?_⟩
    simp [List.getElem?_map, List.getElem?_range, hi, Nat.not_lt.mpr hiw]
  · intro hlen o ho
    simp only [List.mem_map, List.mem_range] at ho
    obtain ⟨i, hi, rfl⟩ := ho
    have hiw : i < window - 1 := by omega
    simp [hiw]

/-- Witness for `moving_average_shape` at `data = [1, 2, 3]`, `window = 2`,
default weights. -/
theorem moving_average_shape_witness :
    (1 ≤ 2) ∧
    calculate_moving_average [1, 2, 3] 2 none =
      .ok [none, some (3/2), some (5/2)] ∧
    ([none, some ((3 : ℚ)/2), some (5/2)].length = 3 ∧
      (∀ i, i < 3 → i < 2 - 1 →
        [none, some ((3 : ℚ)/2), some (5/2)][i]? = some none) ∧
      (∀ i, 2 - 1 ≤ i → i < 3 →
        ∃ v : ℚ, [none, some ((3 : ℚ)/2), some (5/2)][i]? = some (some v)) ∧
      ((3 : ℕ) < 2 → ∀ o ∈ [none, some ((3 : ℚ)/2), some (5/2)], o = none)) := by
  have hw2 : effWeights 2 none = [1/2, 1/2] := by
    norm_num [effWeights, defaultWeights, List.replicate_succ]
  have hok : calculate_moving_average [1, 2, 3] 2 none =
      .ok [none, some (3/2), some (5/2)] := by
    rw [cma_eq_ok _ _ _ (by rw [hw2]; rfl) (by rw [hw2]; norm_num [weightTol])]
    have hlen3 : ([1, 2, 3] : List ℚ).length = 3 := rfl
    have hr : List.range 3 = [0, 1, 2] := rfl
    rw [hlen3, hr]
    simp only [List.map_cons, List.map_nil, hw2]
    have hs1 : ((([1, 2, 3] : List ℚ).drop (1 + 1 - 2)).take 2) = [1, 2] := rfl
    have hs2 : ((([1, 2, 3] : List ℚ).drop (2 + 1 - 2)).take 2) = [2, 3] := rfl
    rw [hs1, hs2]
    have hv1 : weightedSum [1/2, 1/2] [1, 2] = (3 : ℚ)/2 := by
      norm_num [weightedSum, List.zipWith_cons_cons, List.zipWith_nil_right]
    have hv2 : weightedSum [1/2, 1/2] [2, 3] = (5 : ℚ)/2 := by
      norm_num [weightedSum, List.zipWith_cons_cons, List.zipWith_nil_right]
    rw [hv1, hv2]
    have hround1 : round2 ((3 : ℚ)/2) = 3/2 := by
      norm_num [round2, roundHalfEven]
    have hround2 : round2 ((5 : ℚ)/2) = 5/2 := by
      norm_num [round2, roundHalfEven]
    norm_num [hround1, hround2]
  exact ⟨by norm_num, hok,
    by simpa using moving_average_shape [1, 2, 3] 2 none _ (by norm_num) hok⟩

theorem weightedSum_eq_sum (a : List ℚ) :
    ∀ b : List ℚ, a.length ≤ b.length →
      weightedSum a b = ∑ k ∈ Finset.range a.length, a.getD k 0 * b.getD k 0 := by
  induction a with
  | nil => intro b _; simp [weightedSum]
  | cons x a ih =>
    intro b h
    cases b with
    | nil => simp at h
    | cons y b =>
      have h' : a.length ≤ b.length := by simpa using h
      have hstep : weightedSum (x :: a) (y :: b) = x * y + weightedSum a b := by
        simp [weightedSum]
      rw [hstep, ih b h', List.length_cons, Finset.sum_range_succ']
      simp [List.getD_cons_succ, List.getD_cons_zero, add_comm]

theorem getD_drop_take (l : List ℚ) (m w k : ℕ) (hk : k < w) :
    ((l.drop m).take w).getD k 0 = l.getD (m + k) 0 := by
  simp [List.getD_eq_getElem?_getD, List.getElem?_take_of_lt hk,
    List.getElem?_drop]

/-- **C1.** For every data series, window `≥ 1` and effective weight vector
of length `window` summing to 1 within `1e-10` (the uniform
`[1/window] * window` when weights are omitted), the output at every index
`i ≥ window - 1` is `round(Σ weights[k] * data[i-window+1+k], 2)`:
weights are applied most-recent-last. -/
theorem moving_average_weighted_value (data : List ℚ) (window : ℕ)
    (w? : Option (List ℚ)) (i : ℕ) (hw : 1 ≤ window)
    (hlen : (effWeights window w?).length = window)
    (hsum : |(effWeights window w?).sum - 1| ≤ weightTol)
    (hi1 : window - 1 ≤ i) (hi2 : i < data.length) :
    effWeights window none = List.replicate window (1 / (window : ℚ)) ∧
    ∃ res, calculate_moving_average data window w? = .ok res ∧
      res[i]? = some (some (round2 (∑ k ∈ Finset.range window,
        (effWeights window w?).getD k 0 * data.getD (i + 1 - window + k) 0))) := by
  refine ⟨rfl, _, cma_eq_ok data window w? hlen hsum, ?_⟩
  have hslice : (effWeights window w?).length ≤
      ((data.drop (i + 1 - window)).take window).length := by
    simp only [List.length_take, List.length_drop, hlen]
    omega
  rw [List.getElem?_map, List.getElem?_range hi2, Option.map_some',
    if_neg (by omega), weightedSum_eq_sum _ _ hslice, hlen]
  have hsame : ∑ k ∈ Finset.range window,
      (effWeights window w?).getD k 0 *
        ((data.drop (i + 1 - window)).take window).getD k 0 =
      ∑ k ∈ Finset.range window,
        (effWeights window w?).getD k 0 * data.getD (i + 1 - window + k) 0 := by
    apply Finset.sum_congr rfl
    intro k hk
    rw [getD_drop_take _ _ _ _ (Finset.mem_range.mp hk)]
  rw [hsame]

/-- Witness for `moving_average_weighted_value` at `data = [1, 2, 3]`,
`window = 2`, `weights = [1/4, 3/4]`, `i = 2`. -/
theorem moving_average_weighted_value_witness :
    effWeights 2 none = List.replicate 2 (1 / (2 : ℚ)) ∧
    ∃ res, calculate_moving_average [1, 2, 3] 2 (some [1/4, 3/4]) = .ok res ∧
      res[2]? = some (some (round2 (∑ k ∈ Finset.range 2,
        (effWeights 2 (some [1/4, 3/4])).getD k 0 *
          ([1, 2, 3] : List ℚ).getD (2 + 1 - 2 + k) 0))) :=
  moving_average_weighted_value [1, 2, 3] 2 (some [1/4, 3/4]) 2
    (by norm_num) (by norm_num [effWeights])
    (by norm_num [effWeights, weightTol]) (by norm_num) (by norm_num)

/-! ## Coordinate normalizer: theorems -/

/-- **C3.** With `height = 20` and `max_y = 20`, every defined non-negative
value `x` is mapped to row `height - 1 - ⌊(min x max_y / max_y) * (height - 1)⌋`;
`x = max_y` maps to row 0, `x = 0` to row `height - 1`, every `x > max_y`
to the same row as `max_y`, and `None` stays `None`; `normalize_data` is
the elementwise map. -/
theorem normalize_data_formula (x : ℚ) (hx : 0 ≤ x) :
    normalize_one (some x) =
      some ((height : ℤ) - 1 - ⌊min x max_y / max_y * ((height : ℚ) - 1)⌋) ∧
    normalize_one (some max_y) = some 0 ∧
    normalize_one (some 0) = some ((height : ℤ) - 1) ∧
    (max_y < x → normalize_one (some x) = normalize_one (some max_y)) ∧
    normalize_one none = none ∧
    (∀ l : List (Option ℚ), normalize_data l = l.map normalize_one) := by
  refine ⟨?_, ?_, ?_, ?_, rfl, fun l => rfl⟩
  · have harg : 0 ≤ min x max_y / max_y * ((height : ℚ) - 1) := by
      have h1 : 0 ≤ min x max_y := le_min hx (by norm_num [max_y])
      have h2 : 0 ≤ min x max_y / max_y := div_nonneg h1 (by norm_num [max_y])
      exact mul_nonneg h2 (by norm_num [height])
    simp [normalize_one, pyInt, harg]
  · norm_num [normalize_one, pyInt, max_y, height]
  · norm_num [normalize_one, pyInt, max_y, height]
  · intro hgt
    have hmin : min x max_y = max_y := min_eq_right (le_of_lt hgt)
    simp [normalize_one, hmin]

/-- Witness for `normalize_data_formula` at `x = 25` (also exercising the
upper clamp, `25 > max_y`). -/
theorem normalize_data_formula_witness :
    (0 ≤ (25 : ℚ)) ∧
    (normalize_one (some 25) =
      some ((height : ℤ) - 1 - ⌊min 25 max_y / max_y * ((height : ℚ) - 1)⌋) ∧
    normalize_one (some max_y) = some 0 ∧
    normalize_one (some 0) = some ((height : ℤ) - 1) ∧
    (max_y < 25 → normalize_one (some 25) = normalize_one (some max_y)) ∧
    normalize_one none = none ∧
    (∀ l : List (Option ℚ), normalize_data l = l.map normalize_one)) :=
  ⟨by norm_num, normalize_data_formula 25 (by norm_num)⟩

/-- **C8 counterexample.** The claim says every negative value scales to a
row outside `[0, height-1]` and is never plotted.  But Python `int()`
truncates toward zero: at `x = -1` the row is
`19 - int(-0.95) = 19 = height - 1`, which passes the bounds check, and
`draw` does plot the point (grid cell `(19, 0)` receives the symbol). -/
theorem normalize_negative_counterexample :
    normalize_one (some (-1)) = some 19 ∧
    inBoundsB 0 19 = true ∧
    ((plotStep (x_scale 2) '*' initGrid (0, some 19)).getD 19 []).getD 0 ' '
      = '*' := by
  refine ⟨?_, by decide, ?_⟩
  · have hmin : min (-1 : ℚ) max_y = -1 := min_eq_left (by norm_num [max_y])
    have harg : ¬(0 : ℚ) ≤ (-1) / max_y * ((height : ℚ) - 1) := by
      norm_num [max_y, height]
    rw [normalize_one, Option.map_some', hmin, pyInt, if_neg harg]
    norm_num [max_y, height]
  · have hx0 : pyInt (((0 : ℕ) : ℚ) * x_scale 2) = 0 := by
      norm_num [pyInt, x_scale]
    simp only [plotStep]
    rw [hx0]
    decide

/-- **C8 (amended).** Negative inputs are indeed not lower-clamped, but
`int()` truncates toward zero, so only `x ≤ -max_y/(height-1) = -20/19`
scales out of range (row `> height - 1`, failing the bounds check for
every column, hence never plotted); for `-20/19 < x < 0` the scaled value
truncates to 0 and the point lands on row `height - 1`, inside the
canvas. -/
theorem normalize_negative_cases (x : ℚ) (hx : x < 0) :
    normalize_one (some x) =
      some ((height : ℤ) - 1 - pyInt (x / max_y * ((height : ℚ) - 1))) ∧
    (x ≤ -max_y / ((height : ℚ) - 1) →
      ∀ row : ℤ, normalize_one (some x) = some row →
        (height : ℤ) - 1 < row ∧ ∀ col : ℤ, inBoundsB col row = false) ∧
    (-max_y / ((height : ℚ) - 1) < x →
      normalize_one (some x) = some ((height : ℤ) - 1)) := by
  have hmin : min x max_y = x := min_eq_left (by norm_num [max_y]; linarith)
  have hfirst : normalize_one (some x) =
      some ((height : ℤ) - 1 - pyInt (x / max_y * ((height : ℚ) - 1))) := by
    rw [normalize_one, Option.map_some', hmin]
  have hqneg : x / max_y * ((height : ℚ) - 1) < 0 := by
    norm_num [max_y, height]
    linarith
  have hceil : pyInt (x / max_y * ((height : ℚ) - 1)) =
      ⌈x / max_y * ((height : ℚ) - 1)⌉ := by
    rw [pyInt, if_neg (not_le.mpr hqneg)]
  refine ⟨hfirst, ?_, ?_⟩
  · intro hle row hrow
    have hq1 : x / max_y * ((height : ℚ) - 1) ≤ -1 := by
      norm_num [max_y, height] at hle ⊢
      linarith
    have hc1 : ⌈x / max_y * ((height : ℚ) - 1)⌉ ≤ -1 := Int.ceil_le.mpr (by
      push_cast
      linarith)
    rw [hfirst] at hrow
    injection hrow with hrow
    have hrow20 : (height : ℤ) ≤ row := by
      rw [← hrow, hceil]
      omega
    refine ⟨by omega, fun col => ?_⟩
    have hnot : ¬(row < (height : ℤ)) := by omega
    simp [inBoundsB, hnot]
  · intro hgt
    have hq2 : -1 < x / max_y * ((height : ℚ) - 1) := by
      norm_num [max_y, height] at hgt ⊢
      linarith
    have hc0 : ⌈x / max_y * ((height : ℚ) - 1)⌉ = 0 := by
      rw [Int.ceil_eq_iff]
      constructor
      · push_cast
        linarith
      · push_cast
        linarith
    rw [hfirst, hceil, hc0]
    norm_num

/-- Witness for `normalize_negative_cases` at `x = -3`, which scales out
of range. -/
theorem normalize_negative_cases_witness :
    ((-3 : ℚ) < 0) ∧
    (normalize_one (some (-3)) =
      some ((height : ℤ) - 1 - pyInt ((-3) / max_y * ((height : ℚ) - 1))) ∧
    ((-3 : ℚ) ≤ -max_y / ((height : ℚ) - 1) →
      ∀ row : ℤ, normalize_one (some (-3)) = some row →
        (height : ℤ) - 1 < row ∧ ∀ col : ℤ, inBoundsB col row = false) ∧
    (-max_y / ((height : ℚ) - 1) < (-3 : ℚ) →
      normalize_one (some (-3)) = some ((height : ℤ) - 1))) :=
  ⟨by norm_num, normalize_negative_cases (-3) (by norm_num)⟩

/-! ## Renderer: theorems -/

theorem gridDims_initGrid : GridDims initGrid := by
  constructor
  · simp [initGrid]
  · intro row hrow
    rw [List.eq_of_mem_replicate hrow]
    simp

theorem gridDims_setCell {g : List (List Char)} (y x : ℕ) (c : Char)
    (hg : GridDims g) : GridDims (setCell g y x c) := by
  obtain ⟨hl, hr⟩ := hg
  by_cases hy : y < g.length
  · constructor
    · simp [setCell, hl]
    · intro row hrow
      rcases List.mem_or_eq_of_mem_set hrow with hm | hm
      · exact hr _ hm
      · subst hm
        rw [List.length_set, List.getD_eq_getElem g [] hy]
        exact hr _ (List.getElem_mem hy)
  · rw [setCell, List.set_eq_of_length_le (by omega)]
    exact ⟨hl, hr⟩

theorem gridDims_plotStep (xs : ℚ) (c : Char) (g : List (List Char))
    (p : ℕ × Option ℤ) (hg : GridDims g) : GridDims (plotStep xs c g p) := by
  rcases p with ⟨i, y?⟩
  cases y? with
  | none => exact hg
  | some y =>
    simp only [plotStep]
    by_cases hb : inBoundsB (pyInt ((i : ℚ) * xs)) y = true
    · rw [if_pos hb]
      exact gridDims_setCell _ _ _ hg
    · rw [if_neg hb]
      exact hg

theorem gridDims_foldl (xs : ℚ) (c : Char) :
    ∀ (ps : List (ℕ × Option ℤ)) (g : List (List Char)), GridDims g →
      GridDims (ps.foldl (plotStep xs c) g) := by
  intro ps
  induction ps with
  | nil => intro g hg; exact hg
  | cons p ps ih =>
    intro g hg
    exact ih _ (gridDims_plotStep xs c g p hg)

theorem gridDims_plotSeries (xs : ℚ) (c : Char) (nd : List (Option ℤ))
    (g : List (List Char)) (hg : GridDims g) :
    GridDims (plotSeries xs g c nd) :=
  gridDims_foldl xs c nd.enum g hg

theorem gridDims_seriesFold (xs : ℚ) :
    ∀ (series : List SeriesEntry) (g : List (List Char)), GridDims g →
      GridDims (series.foldl
        (fun g e => plotSeries xs g e.symbol (normalize_data e.data)) g) := by
  intro series
  induction series with
  | nil => intro g hg; exact hg
  | cons e series ih =>
    intro g hg
    exact ih _ (gridDims_plotSeries xs e.symbol (normalize_data e.data) g hg)

/-- **C5 counterexample.** With 10 x-axis labels the claim predicts a
canvas width of `10 * 3 - 1 = 29`, but the effective (second) `draw`
always uses the fixed `width = 100` (and `height = 20`): the first
class definitions are silently superseded. -/
theorem draw_width_counterexample :
    drawGrid [] [0, 1, 2, 3, 4, 5, 6, 7, 8, 9] = .ok initGrid ∧
    initGrid.length = 20 ∧
    (∀ row ∈ initGrid, row.length = 100) ∧
    firstDefWidth 10 = 29 ∧
    width = 100 ∧
    ¬width = firstDefWidth 10 := by
  refine ⟨rfl, rfl, ?_, rfl, rfl, by decide⟩
  intro row hrow
  rw [List.eq_of_mem_replicate hrow]
  rfl

/-- **C5 (amended).** The first definition of the renderer (canvas width
`len(labels) * label_spacing - 1`) is silently superseded by the second:
for every series list and every label list that does not have exactly one
element, the effective `draw` builds a canvas of the fixed constants
`height = 20` rows by `width = 100` columns, independent of the label
count. -/
theorem draw_canvas_fixed_size (series : List SeriesEntry)
    (days_ago : List ℤ) (h : days_ago.length ≠ 1) :
    ∃ g, drawGrid series days_ago = .ok g ∧
      g.length = height ∧ ∀ row ∈ g, row.length = width := by
  unfold drawGrid
  rw [if_neg h]
  exact ⟨_, rfl, gridDims_seriesFold _ series initGrid gridDims_initGrid⟩

/-- Witness for `draw_canvas_fixed_size` with one series and two labels. -/
theorem draw_canvas_fixed_size_witness :
    (([0, 1] : List ℤ).length ≠ 1) ∧
    ∃ g, drawGrid [⟨[some 1, some 2, some 3], "Daily Sales", '█'⟩] [0, 1]
        = .ok g ∧
      g.length = height ∧ ∀ row ∈ g, row.length = width :=
  ⟨by decide,
    draw_canvas_fixed_size [⟨[some 1, some 2, some 3], "Daily Sales", '█'⟩]
      [0, 1] (by decide)⟩

/-- **C6 counterexample.** The claim says `draw` never raises for any
input, but with exactly one x-axis label the scale computation
`(width - 1) / (len(days_ago) - 1)` divides by zero (Python
`ZeroDivisionError`) — here with a series longer than the label list. -/
theorem draw_single_label_error :
    drawGrid [⟨[some 1, some 2], "Daily Sales", '█'⟩] [5]
      = .error "ZeroDivisionError" := rfl

/-- **C6 (amended).** For every series list (of any lengths) and every
x-axis label list that does not have exactly one element, `draw` raises
no error; every point whose computed column or row fails the canvas
bounds check is silently dropped (the plotting step leaves the grid
unchanged), as is every undefined point.  (With exactly one label the
x-scale computation divides by zero.) -/
theorem draw_total_and_drops (series : List SeriesEntry)
    (days_ago : List ℤ) (h : days_ago.length ≠ 1) :
    (∃ g, drawGrid series days_ago = .ok g) ∧
    (∀ (xs : ℚ) (c : Char) (g : List (List Char)) (i : ℕ) (y : ℤ),
      inBoundsB (pyInt ((i : ℚ) * xs)) y = false →
      plotStep xs c g (i, some y) = g) ∧
    (∀ (xs : ℚ) (c : Char) (g : List (List Char)) (i : ℕ),
      plotStep xs c g (i, none) = g) := by
  refine ⟨?_, ?_, fun xs c g i => rfl⟩
  · unfold drawGrid
    rw [if_neg h]
    exact ⟨_, rfl⟩
  · intro xs c g i y hb
    simp only [plotStep, hb]
    simp

/-- Witness for `draw_total_and_drops`: a 3-point series against a 2-label
axis (longer than the label list). -/
theorem draw_total_and_drops_witness :
    (([0, 1] : List ℤ).length ≠ 1) ∧
    ((∃ g, drawGrid [⟨[some 1, some 2, some 3], "Daily Sales", '█'⟩] [0, 1]
        = .ok g) ∧
    (∀ (xs : ℚ) (c : Char) (g : List (List Char)) (i : ℕ) (y : ℤ),
      inBoundsB (pyInt ((i : ℚ) * xs)) y = false →
      plotStep xs c g (i, some y) = g) ∧
    (∀ (xs : ℚ) (c : Char) (g : List (List Char)) (i : ℕ),
      plotStep xs c g (i, none) = g)) :=
  ⟨by decide,
    draw_total_and_drops [⟨[some 1, some 2, some 3], "Daily Sales", '█'⟩]
      [0, 1] (by decide)⟩

/-! ## Daily aggregator: theorems -/

theorem lookupD_bump (d e : Date) :
    ∀ m : List (Date × ℕ), lookupD (bump m d) e =
      if e = d then lookupD m e + 1 else lookupD m e := by
  intro m
  induction m with
  | nil =>
    by_cases h : e = d
    · subst h
      simp [bump, lookupD]
    · simp [bump, lookupD, h, Ne.symm h]
  | cons kv rest ih =>
    obtain ⟨k, v⟩ := kv
    by_cases hkd : k = d
    · subst hkd
      by_cases hek : e = k
      · subst hek
        simp [bump, lookupD]
      · simp [bump, lookupD, hek, Ne.symm hek]
    · by_cases hek : e = k
      · subst hek
        have hed : ¬e = d := hkd
        simp [bump, lookupD, hkd, hed]
      · simp [bump, lookupD, hkd, hek, Ne.symm hek, ih]

theorem sum_bump (d : Date) : ∀ m : List (Date × ℕ),
    ((bump m d).map Prod.snd).sum = (m.map Prod.snd).sum + 1 := by
  intro m
  induction m with
  | nil => simp [bump]
  | cons kv rest ih =>
    obtain ⟨k, v⟩ := kv
    by_cases h : k = d
    · simp [bump, h]
      omega
    · simp [bump, h, ih]
      omega

theorem pos_bump (d : Date) : ∀ m : List (Date × ℕ),
    (∀ p ∈ m, 1 ≤ p.2) → ∀ p ∈ bump m d, 1 ≤ p.2 := by
  intro m
  induction m with
  | nil =>
    intro _ p hp
    simp [bump] at hp
    subst hp
    simp
  | cons kv rest ih =>
    obtain ⟨k, v⟩ := kv
    intro hm p hp
    by_cases h : k = d
    · rw [bump, if_pos h] at hp
      rcases List.mem_cons.mp hp with hm' | hm'
      · subst hm'
        simp
      · exact hm p (List.mem_cons_of_mem _ hm')
    · rw [bump, if_neg h] at hp
      rcases List.mem_cons.mp hp with hm' | hm'
      · subst hm'
        exact hm (k, v) (List.mem_cons_self _ _)
      · exact ih (fun q hq => hm q (List.mem_cons_of_mem _ hq)) p hm'

theorem keys_bump (d : Date) : ∀ m : List (Date × ℕ),
    (bump m d).map Prod.fst =
      if d ∈ m.map Prod.fst then m.map Prod.fst
      else m.map Prod.fst ++ [d] := by
  intro m
  induction m with
  | nil => simp [bump]
  | cons kv rest ih =>
    obtain ⟨k, v⟩ := kv
    by_cases h : k = d
    · subst h
      simp [bump]
    · have hdk : ¬d = k := fun hd => h hd.symm
      simp only [bump, if_neg h, List.map_cons, List.mem_cons, hdk,
        false_or]
      rw [ih]
      by_cases hd : d ∈ rest.map Prod.fst
      · rw [if_pos hd, if_pos hd]
      · rw [if_neg hd, if_neg hd]
        rfl

theorem nodup_keys_bump (d : Date) (m : List (Date × ℕ))
    (h : (m.map Prod.fst).Nodup) : ((bump m d).map Prod.fst).Nodup := by
  rw [keys_bump]
  by_cases hd : d ∈ m.map Prod.fst
  · rwa [if_pos hd]
  · rw [if_neg hd]
    simp [List.nodup_append, h, hd]

theorem mem_keys_bump (d e : Date) (m : List (Date × ℕ)) :
    e ∈ (bump m d).map Prod.fst ↔ e ∈ m.map Prod.fst ∨ e = d := by
  rw [keys_bump]
  by_cases hd : d ∈ m.map Prod.fst
  · rw [if_pos hd]
    constructor
    · exact Or.inl
    · rintro (h | rfl)
      · exact h
      · exact hd
  · rw [if_neg hd]
    simp

theorem lookupD_tally_fold (e : Date) :
    ∀ (dates : List Date) (m : List (Date × ℕ)),
      lookupD (dates.foldl bump m) e = lookupD m e + dates.count e := by
  intro dates
  induction dates with
  | nil => intro m; simp
  | cons a l ih =>
    intro m
    rw [List.foldl_cons, ih, lookupD_bump]
    by_cases h : e = a
    · subst h
      rw [if_pos rfl, List.count_cons_self]
      omega
    · rw [if_neg h, List.count_cons_of_ne h]

theorem mem_keys_tally_fold (e : Date) :
    ∀ (dates : List Date) (m : List (Date × ℕ)),
      e ∈ (dates.foldl bump m).map Prod.fst ↔
        e ∈ m.map Prod.fst ∨ e ∈ dates := by
  intro dates
  induction dates with
  | nil => intro m; simp
  | cons a l ih =>
    intro m
    rw [List.foldl_cons, ih, mem_keys_bump]
    simp only [List.mem_cons]
    tauto

theorem nodup_keys_tally_fold :
    ∀ (dates : List Date) (m : List (Date × ℕ)),
      (m.map Prod.fst).Nodup → ((dates.foldl bump m).map Prod.fst).Nodup := by
  intro dates
  induction dates with
  | nil => intro m hm; exact hm
  | cons a l ih =>
    intro m hm
    exact ih _ (nodup_keys_bump a m hm)

theorem pos_tally_fold :
    ∀ (dates : List Date) (m : List (Date × ℕ)),
      (∀ p ∈ m, 1 ≤ p.2) → ∀ p ∈ dates.foldl bump m, 1 ≤ p.2 := by
  intro dates
  induction dates with
  | nil => intro m hm; exact hm
  | cons a l ih =>
    intro m hm
    exact ih _ (pos_bump a m hm)

theorem sum_tally_fold :
    ∀ (dates : List Date) (m : List (Date × ℕ)),
      ((dates.foldl bump m).map Prod.snd).sum =
        (m.map Prod.snd).sum + dates.length := by
  intro dates
  induction dates with
  | nil => intro m; simp
  | cons a l ih =>
    intro m
    rw [List.foldl_cons, ih, sum_bump, List.length_cons]
    omega

theorem mem_of_nodup_lookupD :
    ∀ m : List (Date × ℕ), (m.map Prod.fst).Nodup →
      ∀ (d : Date) (n : ℕ),
        ((d, n) ∈ m ↔ d ∈ m.map Prod.fst ∧ lookupD m d = n) := by
  intro m
  induction m with
  | nil => simp [lookupD]
  | cons kv rest ih =>
    obtain ⟨k, v⟩ := kv
    intro hn d n
    rw [List.map_cons, List.nodup_cons] at hn
    obtain ⟨hk, hrest⟩ := hn
    by_cases hdk : k = d
    · subst hdk
      constructor
      · intro hmem
        rcases List.mem_cons.mp hmem with heq | hmem'
        · injection heq with h1 h2
          subst h2
          exact ⟨by simp, by simp [lookupD]⟩
        · exact absurd (List.mem_map_of_mem Prod.fst hmem') hk
      · rintro ⟨-, hl2⟩
        have hv : v = n := by
          rw [← hl2]
          simp [lookupD]
        subst hv
        exact List.mem_cons_self _ _
    · have hl : lookupD ((k, v) :: rest) d = lookupD rest d := by
        simp [lookupD, hdk]
      constructor
      · intro hmem
        rcases List.mem_cons.mp hmem with heq | hmem'
        · injection heq with h1 h2
          exact absurd h1.symm hdk
        · obtain ⟨hm2, hl2⟩ := (ih hrest d n).mp hmem'
          refine ⟨?_, by rw [hl, hl2]⟩
          rw [List.map_cons]
          exact List.mem_cons_of_mem _ hm2
      · rintro ⟨hmm, hl2⟩
        rw [List.map_cons] at hmm
        rcases List.mem_cons.mp hmm with hd | hm2
        · exact absurd hd.symm hdk
        · exact List.mem_cons_of_mem _
            ((ih hrest d n).mpr ⟨hm2, by rw [← hl, hl2]⟩)

theorem lookupD_tally (dates : List Date) (e : Date) :
    lookupD (tally dates) e = dates.count e := by
  rw [tally, lookupD_tally_fold]
  simp [lookupD]

theorem nodup_keys_tally (dates : List Date) :
    ((tally dates).map Prod.fst).Nodup :=
  nodup_keys_tally_fold dates [] (by simp)

theorem pos_tally (dates : List Date) : ∀ p ∈ tally dates, 1 ≤ p.2 :=
  pos_tally_fold dates [] (by simp)

theorem sum_tally (dates : List Date) :
    ((tally dates).map Prod.snd).sum = dates.length := by
  have := sum_tally_fold dates []
  simpa [tally] using this

theorem mem_keys_tally (dates : List Date) (e : Date) :
    e ∈ (tally dates).map Prod.fst ↔ e ∈ dates := by
  rw [tally, mem_keys_tally_fold]
  simp

theorem mem_tally (dates : List Date) (d : Date) (n : ℕ) :
    (d, n) ∈ tally dates ↔ d ∈ dates ∧ n = dates.count d := by
  rw [mem_of_nodup_lookupD (tally dates) (nodup_keys_tally dates) d n,
    mem_keys_tally, lookupD_tally]
  exact and_congr_right fun _ => eq_comm

instance : IsTotal (Date × ℕ) entryLe :=
  ⟨fun a b => by unfold entryLe Date.le; omega⟩

instance : IsTrans (Date × ℕ) entryLe :=
  ⟨fun a b c hab hbc => by unfold entryLe Date.le at *; omega⟩

theorem sorted_nodup_pairwise_lt (s : List (Date × ℕ))
    (hs : s.Sorted entryLe) (hn : (s.map Prod.fst).Nodup) :
    s.Pairwise fun p q => Date.lt p.1 q.1 := by
  have h1 : s.Pairwise fun p q => p.1 ≠ q.1 := List.pairwise_map.mp hn
  exact (hs.and h1).imp fun h => ⟨h.1, h.2⟩

theorem parseAll_eq_none (orders : List Order) :
    parseAll orders = none ↔ ∃ o ∈ orders, parseDate o.date_created = none := by
  induction orders with
  | nil => simp [parseAll]
  | cons o rest ih =>
    rw [parseAll]
    cases hp : parseDate o.date_created with
    | none =>
      simp only [true_iff]
      exact ⟨o, List.mem_cons_self _ _, hp⟩
    | some d =>
      simp [Option.map_eq_none', ih, hp]

theorem parseAll_length : ∀ (orders : List Order) (dates : List Date),
    parseAll orders = some dates → dates.length = orders.length := by
  intro orders
  induction orders with
  | nil =>
    intro dates h
    simp only [parseAll, Option.some.injEq] at h
    subst h
    rfl
  | cons o rest ih =>
    intro dates h
    rw [parseAll] at h
    cases hp : parseDate o.date_created with
    | none => rw [hp] at h; exact absurd h (by simp)
    | some d =>
      rw [hp] at h
      cases hr : parseAll rest with
      | none => rw [hr] at h; exact absurd h (by simp)
      | some ds =>
        rw [hr] at h
        simp only [Option.map_some', Option.some.injEq] at h
        subst h
        simp [ih ds hr]

/-- **C4.** For every order list whose timestamps all parse (to the date
list `dates`), the aggregation succeeds and returns exactly one entry per
distinct calendar day — membership `(d, n)` holds iff day `d` occurs in
the input and `n` is its number of orders — with entries strictly
ascending by date, regardless of input order. -/
theorem aggregate_daily_sales_spec (orders : List Order) (dates : List Date)
    (h : parseAll orders = some dates) :
    ∃ m, aggregate_daily_sales orders = .ok m ∧
      (∀ (d : Date) (n : ℕ), (d, n) ∈ m ↔ d ∈ dates ∧ n = dates.count d) ∧
      m.Pairwise (fun p q => Date.lt p.1 q.1) := by
  have hagg : aggregate_daily_sales orders =
      .ok (List.insertionSort entryLe (tally dates)) := by
    unfold aggregate_daily_sales
    rw [h]
  refine ⟨_, hagg, ?_, ?_⟩
  · intro d n
    rw [(List.perm_insertionSort entryLe (tally dates)).mem_iff]
    exact mem_tally dates d n
  · exact sorted_nodup_pairwise_lt _
      (List.sorted_insertionSort entryLe (tally dates))
      (((List.perm_insertionSort entryLe (tally dates)).map
        Prod.fst).nodup_iff.mpr (nodup_keys_tally dates))

/-- Witness for `aggregate_daily_sales_spec` at the spec's example: orders
dated 2024-01-01, 2024-01-01, 2024-01-02 give `{2024-01-01: 2,
2024-01-02: 1}` in that key order. -/
theorem aggregate_daily_sales_spec_witness :
    parseAll [⟨"2024-01-01T10:00:00"⟩, ⟨"2024-01-01"⟩, ⟨"2024-01-02"⟩] =
      some [⟨2024, 1, 1⟩, ⟨2024, 1, 1⟩, ⟨2024, 1, 2⟩] ∧
    (∃ m, aggregate_daily_sales
        [⟨"2024-01-01T10:00:00"⟩, ⟨"2024-01-01"⟩, ⟨"2024-01-02"⟩] = .ok m ∧
      (∀ (d : Date) (n : ℕ), (d, n) ∈ m ↔
        d ∈ [⟨2024, 1, 1⟩, ⟨2024, 1, 1⟩, ⟨2024, 1, 2⟩] ∧
        n = List.count d [⟨2024, 1, 1⟩, ⟨2024, 1, 1⟩, ⟨2024, 1, 2⟩]) ∧
      m.Pairwise (fun p q => Date.lt p.1 q.1)) ∧
    aggregate_daily_sales
        [⟨"2024-01-01T10:00:00"⟩, ⟨"2024-01-01"⟩, ⟨"2024-01-02"⟩] =
      .ok [(⟨2024, 1, 1⟩, 2), (⟨2024, 1, 2⟩, 1)] ∧
    (⟨2024, 1, 1⟩ : Date).fmt = "2024-01-01" ∧
    (⟨2024, 1, 2⟩ : Date).fmt = "2024-01-02" :=
  ⟨by decide,
    aggregate_daily_sales_spec _ _ (by decide),
    by rfl, by decide, by decide⟩

/-- **C9.** `aggregate_daily_sales` fails with `MalformedTimestamp` if and
only if some order's `date_created` does not parse as an ISO-8601
datetime (the error propagates, malformed orders are not skipped), and it
returns normally whenever every timestamp parses. -/
theorem aggregate_error_iff (orders : List Order) :
    (aggregate_daily_sales orders = .error "MalformedTimestamp" ↔
      ∃ o ∈ orders, parseDate o.date_created = none) ∧
    (∀ dates : List Date, parseAll orders = some dates →
      ∃ m, aggregate_daily_sales orders = .ok m) := by
  constructor
  · rw [← parseAll_eq_none]
    unfold aggregate_daily_sales
    cases hp : parseAll orders with
    | none => simp
    | some ds => simp
  · intro dates hp
    unfold aggregate_daily_sales
    rw [hp]
    exact ⟨_, rfl⟩

/-- Witness for `aggregate_error_iff` at a malformed order: the error is
actually raised there. -/
theorem aggregate_error_iff_witness :
    ((aggregate_daily_sales [⟨"not-a-date"⟩] = .error "MalformedTimestamp" ↔
      ∃ o ∈ [(⟨"not-a-date"⟩ : Order)], parseDate o.date_created = none) ∧
    (∀ dates : List Date, parseAll [(⟨"not-a-date"⟩ : Order)] = some dates →
      ∃ m, aggregate_daily_sales [(⟨"not-a-date"⟩ : Order)] = .ok m)) ∧
    aggregate_daily_sales [⟨"not-a-date"⟩] = .error "MalformedTimestamp" :=
  ⟨aggregate_error_iff [⟨"not-a-date"⟩], by rfl⟩

/-- **C10.** For every order list whose timestamps all parse, the counts
returned by `aggregate_daily_sales` sum to the total number of orders,
and every count is at least 1. -/
theorem aggregate_counts_sum (orders : List Order) (dates : List Date)
    (h : parseAll orders = some dates) :
    ∃ m, aggregate_daily_sales orders = .ok m ∧
      (m.map Prod.snd).sum = orders.length ∧
      ∀ p ∈ m, 1 ≤ p.2 := by
  have hagg : aggregate_daily_sales orders =
      .ok (List.insertionSort entryLe (tally dates)) := by
    unfold aggregate_daily_sales
    rw [h]
  refine ⟨_, hagg, ?_, ?_⟩
  · rw [((List.perm_insertionSort entryLe (tally dates)).map
      Prod.snd).sum_eq, sum_tally, parseAll_length orders dates h]
  · intro p hp
    exact pos_tally dates p
      ((List.perm_insertionSort entryLe (tally dates)).mem_iff.mp hp)

/-- Witness for `aggregate_counts_sum` at the three-order example:
the counts 2 and 1 sum to 3. -/
theorem aggregate_counts_sum_witness :
    parseAll [⟨"2024-01-01T10:00:00"⟩, ⟨"2024-01-01"⟩, ⟨"2024-01-02"⟩] =
      some [⟨2024, 1, 1⟩, ⟨2024, 1, 1⟩, ⟨2024, 1, 2⟩] ∧
    ∃ m, aggregate_daily_sales
        [⟨"2024-01-01T10:00:00"⟩, ⟨"2024-01-01"⟩, ⟨"2024-01-02"⟩] = .ok m ∧
      (m.map Prod.snd).sum =
        [(⟨"2024-01-01T10:00:00"⟩ : Order), ⟨"2024-01-01"⟩,
          ⟨"2024-01-02"⟩].length ∧
      ∀ p ∈ m, 1 ≤ p.2 :=
  ⟨by decide,
    aggregate_counts_sum
      [⟨"2024-01-01T10:00:00"⟩, ⟨"2024-01-01"⟩, ⟨"2024-01-02"⟩]
      [⟨2024, 1, 1⟩, ⟨2024, 1, 1⟩, ⟨2024, 1, 2⟩] (by decide)⟩

end Woo9600
